import Mathlib

/-!
Shallow embedding of the `lru` package (an LRU cache with pluggable storage
backends) and proofs about its claimed properties.

Conventions of the embedding:
* Python `datetime` timestamps become a `Nat` logical clock; each operation
  that calls `datetime.now()` takes the current time `now : Nat` explicitly.
* Python `int` counters that can be decremented below zero are `Int`.
* Entry sizes are `Nat` (the spec's data model declares sizes non-negative,
  and `sys.getsizeof` is non-negative).
* Python exceptions become an error inductive; operations that can both
  mutate state and raise return `Except err res × state` so that a raise
  after a partial mutation is representable.
* Python `dict`s become association lists; on the states the library can
  actually reach (captured by the `WF` predicate below) the keys are
  unique, so "erase first binding" coincides with `del`.
-/

namespace LruSpec

/-- Error values raised by the pure-Python part of the package.
`keyError` is Python's builtin `KeyError` (with its message);
`typeError` stands for the `TypeError` Python raises on operations such
as `datetime + None`, `int > None`, or calling `heapq.heappop()` with a
missing argument. -/
inductive PyErr where
  | keyError (msg : String)
  | typeError
  | exceptionMsg (msg : String)
  | valueErrorMsg (msg : String)
  deriving DecidableEq, Repr

/-- True for any Python `KeyError`, whatever its message. -/
def PyErr.is_key_error : PyErr → Bool
  | .keyError _ => true
  | _ => false

/-- Container from `MemoryStorage.py` (`CachedDataItem`): one cached entry. -/
structure CachedDataItem (α : Type) where
  key : String
  data : α
  lastUsed : Nat
  size : Nat
  expireAfter : Option Nat
  deriving DecidableEq, Repr

/-- State of `MemoryStorage` (`MemoryStorage.py`): the items dict, the
recency list (`__key_priority`, least recently used first), the expiry
min-heap (`__expire_queue`, modelled as a list sorted ascending by
`(expire, key)` so its head is the heap top), the running total
(`__total_size`) and the write-only `__oldest_lru` field. -/
structure MemoryStorage (α : Type) where
  items : List (String × CachedDataItem α)
  keyPriority : List String
  expireQueue : List (Nat × String)
  totalSize : Int
  oldestLru : Option Nat
  deriving DecidableEq, Repr

namespace MemoryStorage

/-- The empty storage, as built by `MemoryStorage.__init__`. -/
def empty (α : Type) : MemoryStorage α :=
  { items := [], keyPriority := [], expireQueue := [], totalSize := 0, oldestLru := none }

/-- Python tuple comparison used by `heapq` on `(expire_after, key)` pairs. -/
def pairLe (a b : Nat × String) : Bool :=
  a.1 < b.1 || (a.1 == b.1 && decide (a.2 ≤ b.2))

/-- Ordered insertion modelling `heapq.heappush` (the model keeps the heap as
a sorted list; only the heap top is ever observable in the source). -/
def heapPush (x : Nat × String) : List (Nat × String) → List (Nat × String)
  | [] => [x]
  | y :: ys => if pairLe x y then x :: y :: ys else y :: heapPush x ys

/-- `MemoryStorage.has`: key membership in the items dict. -/
def has (st : MemoryStorage α) (k : String) : Bool :=
  (st.items.lookup k).isSome

/-- `MemoryStorage.remove`: delete the entry (if present) from the dict and
the recency list and subtract its size from the running total.  The
`notify_evicted` callback is observational only and is not modelled. -/
def remove (k : String) (st : MemoryStorage α) : MemoryStorage α :=
  match st.items.lookup k with
  | none => st
  | some item =>
      { st with
        items := st.items.eraseP (fun p => p.1 == k)
        keyPriority := st.keyPriority.erase k
        totalSize := st.totalSize - (item.size : Int) }

/-- `MemoryStorage.add`: remove any prior entry for the key, then append the
new entry to the dict and the recency tail; push an expiry-heap record when
`expire_after` is not `None`.  (`last_used` defaults to `datetime.now()`;
the source's `if self.__oldest_lru is None: self.__oldest_lru = None` is a
no-op and is not modelled.) -/
def add (now : Nat) (k : String) (d : α) (lastUsed : Option Nat) (size : Nat)
    (expireAfter : Option Nat) (st : MemoryStorage α) : MemoryStorage α :=
  let st1 := if st.has k then st.remove k else st
  let item : CachedDataItem α :=
    { key := k, data := d, lastUsed := lastUsed.getD now, size := size, expireAfter := expireAfter }
  let st2 :=
    { st1 with
      keyPriority := st1.keyPriority ++ [k]
      items := st1.items ++ [(k, item)]
      totalSize := st1.totalSize + (size : Int) }
  match expireAfter with
  | some e => { st2 with expireQueue := heapPush (e, k) st2.expireQueue }
  | none => st2

/-- `MemoryStorage.touch_last_used`.  When the key is live: remove it from
the recency list, stamp `last_used = now`, re-append it, and set
`__oldest_lru`.  When the key is absent the source still appends the key to
`__key_priority` (the append sits outside the `if`) and then raises
`KeyError` at `self.__items[key].last_used`; the partial mutation is kept. -/
def touch_last_used (now : Nat) (k : String) (st : MemoryStorage α) :
    Except PyErr Unit × MemoryStorage α :=
  if (st.items.lookup k).isSome then
    let items' := st.items.map (fun p => if p.1 == k then (p.1, { p.2 with lastUsed := now }) else p)
    (.ok (),
      { st with
        items := items'
        keyPriority := st.keyPriority.erase k ++ [k]
        oldestLru := some now })
  else
    (.error (.keyError k), { st with keyPriority := st.keyPriority ++ [k] })

/-- `MemoryStorage.get`: `self.__items[key]` raises `KeyError` when absent;
comparing `item.expire_after > datetime.now()` raises `TypeError` when
`expire_after` is `None`; a non-expired hit touches recency and returns the
data; an expired hit raises a plain `KeyError` ("%s has expired") WITHOUT
removing the entry. -/
def get (now : Nat) (k : String) (st : MemoryStorage α) :
    Except PyErr α × MemoryStorage α :=
  match st.items.lookup k with
  | none => (.error (.keyError k), st)
  | some item =>
      match item.expireAfter with
      | none => (.error .typeError, st)
      | some e =>
          if now < e then
            let t := st.touch_last_used now k
            (.ok item.data, t.2)
          else
            (.error (.keyError (k ++ " has expired")), st)

/-- `MemoryStorage.next_to_remove`: the head of `__key_priority` (least
recently used), `None` when empty. -/
def next_to_remove (st : MemoryStorage α) : Option String :=
  st.keyPriority.head?

/-- Eviction loop of `MemoryStorage.make_room_for`:
`while len(key_priority) > 0 and total_size + size > max_size: remove(next_to_remove())`.
The loop is given fuel; `keyPriority.length` fuel is exactly enough on
every well-formed state (each iteration removes the head key). -/
def makeRoomLoop (size : Nat) (maxSize : Int) : Nat → MemoryStorage α → MemoryStorage α
  | 0, st => st
  | fuel + 1, st =>
      match st.keyPriority with
      | [] => st
      | k :: _ =>
          if st.totalSize + (size : Int) > maxSize then
            makeRoomLoop size maxSize fuel (st.remove k)
          else
            st

/-- `MemoryStorage.make_room_for(size, max_size)`.  With `max_size = None`
the loop guard `total_size + size > None` raises `TypeError` as soon as the
storage is non-empty (the `len > 0` conjunct is evaluated first, so an
empty storage returns without error). -/
def make_room_for (size : Nat) (maxSize : Option Int) (st : MemoryStorage α) :
    Except PyErr (MemoryStorage α) :=
  match maxSize with
  | none =>
      match st.keyPriority with
      | [] => .ok st
      | _ :: _ => .error .typeError
  | some m => .ok (makeRoomLoop size m st.keyPriority.length st)

/-- `MemoryStorage.remove_expired`.  The empty-queue `IndexError` is caught
and the call returns; a not-yet-expired heap top ends the loop; but when
the heap top IS expired the source executes `heapq.heappop()` with no
arguments, which raises `TypeError` before anything is removed. -/
def remove_expired (now : Nat) (st : MemoryStorage α) :
    Except PyErr Unit × MemoryStorage α :=
  match st.expireQueue with
  | [] => (.ok (), st)
  | (e, _) :: _ =>
      if e ≤ now then (.error .typeError, st)
      else (.ok (), st)

end MemoryStorage

/-- Well-formedness of a `MemoryStorage` state: recency keys are unique,
dict keys are unique, the recency list and the dict track the same key set,
and the running total equals the sum of the stored sizes.  Every state the
library builds from `empty` satisfies it. -/
def MemWF (st : MemoryStorage α) : Prop :=
  st.keyPriority.Nodup ∧
  (st.items.map Prod.fst).Nodup ∧
  (∀ k ∈ st.keyPriority, (st.items.lookup k).isSome) ∧
  (∀ p ∈ st.items, p.1 ∈ st.keyPriority) ∧
  st.totalSize = (st.items.map (fun p => (p.2.size : Int))).sum

instance (st : MemoryStorage α) [DecidableEq α] : Decidable (MemWF st) := by
  unfold MemWF; infer_instance

/-- Configuration and state of the facade `LRUCache` (`LRUCache.py`),
attached to the default `MemoryStorage` backend.  `sizeofFn` models the
optional user `sizeof` function; a `none` result stands for the
`AttributeError` that the source converts to size `0`.  `pySizeof` models
`sys.getsizeof`.  `maxSize` and `maxAge` are the two optional limits. -/
structure LRUCache (α : Type) where
  storage : MemoryStorage α
  maxSize : Option Nat
  sizeofFn : Option (α → Option Nat)
  pySizeof : α → Nat
  maxAge : Option Nat

namespace LRUCache

/-- Size resolution at the top of `LRUCache.put`: an explicit `size` wins;
else the configured `sizeof` (an `AttributeError` inside it yields 0);
else `sys.getsizeof(data)`. -/
def resolveSize (c : LRUCache α) (d : α) (size? : Option Nat) : Nat :=
  match size? with
  | some s => s
  | none =>
      match c.sizeofFn with
      | some f => (f d).getD 0
      | none => c.pySizeof d

/-- Expiry resolution in `LRUCache.put`: `now + expires_in` when a ttl is
given, otherwise `datetime.now() + self.max_age` — which raises
`TypeError` when `max_age` is `None`.  Note the source never produces
"no expiry": the result is always a definite timestamp or an error. -/
def resolveExpireAfter (now : Nat) (maxAge : Option Nat) (expiresIn : Option Nat) :
    Except PyErr Nat :=
  match expiresIn with
  | some t => .ok (now + t)
  | none =>
      match maxAge with
      | some a => .ok (now + a)
      | none => .error .typeError

/-- `LRUCache.put`: resolve size and expiry, then under the lock reject
silently when `max_size` is set and the size exceeds it, else
`make_room_for(size, max_size)` followed by `storage.add` (any error from
the intermediate steps propagates, written as explicit matches). -/
def put (now : Nat) (c : LRUCache α) (k : String) (d : α)
    (expiresIn : Option Nat) (size? : Option Nat) : Except PyErr (LRUCache α) :=
  let size := c.resolveSize d size?
  match resolveExpireAfter now c.maxAge expiresIn with
  | .error e => .error e
  | .ok expireAfter =>
      match c.maxSize with
      | some m =>
          if size > m then
            .ok c
          else
            match c.storage.make_room_for size (some (m : Int)) with
            | .error e => .error e
            | .ok st => .ok { c with storage := st.add now k d none size (some expireAfter) }
      | none =>
          match c.storage.make_room_for size none with
          | .error e => .error e
          | .ok st => .ok { c with storage := st.add now k d none size (some expireAfter) }

end LRUCache

/-- Concrete in-memory state used by the C2 theorems: a single entry of
size 5. -/
def C2state : MemoryStorage Nat :=
  { items := [("a", { key := "a", data := 0, lastUsed := 0, size := 5, expireAfter := none })],
    keyPriority := ["a"], expireQueue := [], totalSize := 5, oldestLru := none }

/-- Concrete cache used by the C1 witness: `max_size = 5`, `max_age = 10`. -/
def C1cache : LRUCache Nat :=
  { storage := MemoryStorage.empty Nat, maxSize := some 5, sizeofFn := none,
    pySizeof := fun _ => 0, maxAge := some 10 }

/-- The state of `C1cache` after `put(now := 0, key := "a", data := 7, size := 3)`. -/
def C1post : LRUCache Nat :=
  { C1cache with storage := (MemoryStorage.empty Nat).add 0 "a" 7 none 3 (some 10) }

/-- Concrete cache used by the C1 counterexample: `max_size = 2`, no
`max_age`, a `sizeof` function returning 10. -/
def C1big : LRUCache Nat :=
  { storage := MemoryStorage.empty Nat, maxSize := some 2,
    sizeofFn := some (fun _ => some 10), pySizeof := fun _ => 0, maxAge := none }

/-- Concrete cache used by the C3 theorem: no `max_size`, no `max_age`. -/
def C3cache : LRUCache Nat :=
  { storage := MemoryStorage.empty Nat, maxSize := none, sizeofFn := none,
    pySizeof := fun _ => 1, maxAge := none }

/-- Concrete in-memory state used by the C4 theorem: one entry for `"k"`
of size 5 that expired at time 10. -/
def C4state : MemoryStorage Nat :=
  { items := [("k", { key := "k", data := 7, lastUsed := 0, size := 5, expireAfter := some 10 })],
    keyPriority := ["k"], expireQueue := [(10, "k")], totalSize := 5, oldestLru := none }

/-- Concrete in-memory state used by the C6 theorem: one entry for `"x"`
of size 4 that expired at time 10, plus one live entry. -/
def C6state : MemoryStorage Nat :=
  { items := [("x", { key := "x", data := 1, lastUsed := 0, size := 4, expireAfter := some 10 }),
              ("y", { key := "y", data := 2, lastUsed := 1, size := 3, expireAfter := some 99 })],
    keyPriority := ["x", "y"], expireQueue := [(10, "x"), (99, "y")], totalSize := 7,
    oldestLru := none }

/-- One row of the `cache_entries` table of `Sqlite3Storage.py`
(`cache_key PRIMARY KEY, entry, entry_size, last_used, expires`). -/
structure SqliteRow where
  cache_key : String
  entry : String
  entry_size : Nat
  last_used : Nat
  expires : Option Nat
  deriving DecidableEq, Repr

namespace Sqlite3Storage

/-- `Sqlite3Storage.next_to_remove`: the query
`SELECT cache_key FROM cache_entries ORDER BY last_used DESC LIMIT 1`,
i.e. the key of the row with the greatest `last_used` (callers pass rows
with distinct `last_used`; SQLite leaves ties unspecified and the model
keeps the first maximum). -/
def next_to_remove (rows : List SqliteRow) : Option String :=
  match rows.foldl (fun acc r =>
      match acc with
      | none => some r
      | some b => if r.last_used > b.last_used then some r else acc) none with
  | some r => some r.cache_key
  | none => none

/-- Modelled from the spec: "`next_to_remove() -> key | none`: the single
key with the oldest `last_used` among live entries" — ascending order,
the behaviour the spec declares intended (the descending query in the
source is flagged there as a copy-paste inversion).  Kept as a separate
definition to compare with the source's `next_to_remove` above. -/
def next_to_remove_oldest (rows : List SqliteRow) : Option String :=
  match rows.foldl (fun acc r =>
      match acc with
      | none => some r
      | some b => if r.last_used < b.last_used then some r else acc) none with
  | some r => some r.cache_key
  | none => none

end Sqlite3Storage

/-- Concrete `cache_entries` table used by the C5 theorem: `"a"` was used
at time 1 (least recently), `"b"` at time 2. -/
def C5rows : List SqliteRow :=
  [{ cache_key := "a", entry := "va", entry_size := 1, last_used := 1, expires := none },
   { cache_key := "b", entry := "vb", entry_size := 1, last_used := 2, expires := none }]

/-- Errors of the file-backed storage (`filecache/storage.py`).
`cachedFileLocked` is the backend's own error, raised from the
live-handle table check; `filelockTimeout` models the `Timeout` the
third-party `filelock` library raises after the bounded non-blocking
wait; `blocksIndefinitely` is the model's marker for a blocking acquire
against a held lock (the Python call simply keeps waiting);
`valueError` covers the two `ValueError`s of the storage; `noItemsCached`
is raised by `__delete_item_data` when it deleted zero bytes. -/
inductive FcErr where
  | cachedFileLocked
  | filelockTimeout
  | blocksIndefinitely
  | valueError (msg : String)
  | noItemsCached
  deriving DecidableEq, Repr

/-- Modelled from the spec: the package's exceptions module is not under
src/ (only importers of `CachedFileLocked` are), and spec section 7
defines error KINDS, not type names: "CachedFileLocked — non-blocking
acquisition found the per-key lock held, locally or cross-process".
Under that definition both the live-handle-table rejection and the
bounded-wait lock timeout are the CachedFileLocked kind. -/
def FcErr.is_cached_file_locked_kind : FcErr → Bool
  | .cachedFileLocked => true
  | .filelockTimeout => true
  | _ => false

/-- One on-disk entry of the file backend, summarised: its normalized
name, the modification time of its metadata file, and the combined byte
size of its metadata and content files. -/
structure FileEntry where
  name : String
  mtime : Nat
  size : Nat
  deriving DecidableEq, Repr

/-- Lock-and-accounting state of `FileCacheStorage`
(`filecache/storage.py`): the `__live_handles` weakref table (the Bool
records whether the weakref still resolves), the names whose `.lock`
file is currently acquired (by this process or another), the entries on
disk, and the running size total (`AutoUpdatingSize` as its counter; its
timed disk rescan is wall-clock/filesystem behaviour outside this
model). -/
structure FileCacheStorage where
  liveHandles : List (String × Bool)
  heldLocks : List String
  entries : List FileEntry
  sizeTotal : Int
  deriving DecidableEq, Repr

namespace FileCacheStorage

/-- The `FileLock` timeout argument chosen in `_get_lock_for`: infinite
(written −1) when blocking, a bounded 5-second wait otherwise. -/
def lock_timeout (blocking : Bool) : Int := if blocking then -1 else 5

/-- `lock.acquire()` of the third-party `filelock` library: succeeds and
records the holder when the lock file is free; with the bounded timeout
it raises `Timeout` after the wait; with the infinite timeout it keeps
waiting (the `blocksIndefinitely` outcome).  The third component records
that the file lock was attempted at all. -/
def acquire_lock (name : String) (blocking : Bool) (st : FileCacheStorage) :
    Except FcErr Unit × FileCacheStorage × Bool :=
  if name ∈ st.heldLocks then
    if blocking then (.error .blocksIndefinitely, st, true)
    else (.error .filelockTimeout, st, true)
  else (.ok (), { st with heldLocks := name :: st.heldLocks }, true)

/-- `FileCacheStorage._handle_lost`: drop the stale weakref table entry
(the warning print is not modelled). -/
def handle_lost (name : String) (st : FileCacheStorage) : FileCacheStorage :=
  { st with liveHandles := st.liveHandles.eraseP (fun p => p.1 == name) }

/-- `FileCacheStorage._get_lock_for(name, blocking)`: a live same-process
handle fails immediately with `CachedFileLocked`, before any file lock is
attempted (third component false); a dead table entry is cleared via
`_handle_lost`; then the cross-process file lock is acquired.  Names
arrive already normalized. -/
def get_lock_for (name : String) (blocking : Bool) (st : FileCacheStorage) :
    Except FcErr Unit × FileCacheStorage × Bool :=
  match st.liveHandles.lookup name with
  | some true => (.error .cachedFileLocked, st, false)
  | some false => acquire_lock name blocking (handle_lost name st)
  | none => acquire_lock name blocking st

/-- Locking skeleton of `FileCacheStorage.get`: acquire the per-key lock
via `_get_lock_for`, then register the new live handle in the weakref
table.  (The metadata/content reads that build the returned handle do
not change the lock state and are outside this model.) -/
def fc_get (name : String) (blocking : Bool) (st : FileCacheStorage) :
    Except FcErr Unit × FileCacheStorage :=
  match get_lock_for name blocking st with
  | (.error e, st', _) => (.error e, st')
  | (.ok _, st', _) => (.ok (), { st' with liveHandles := (name, true) :: st'.liveHandles })

/-- Lock bookkeeping of `FileCacheStorage.handle_released` (reached from
`CachedFileHandle.release`): requires a record of the handle in the
live-handle table, releases the file lock and drops the table entry.
(The metadata write and size-delta accounting of the non-discarded path
act on the filesystem, not on the lock state.) -/
def handle_released (name : String) (st : FileCacheStorage) :
    Except FcErr FileCacheStorage :=
  if (st.liveHandles.lookup name).isSome then
    .ok { st with heldLocks := st.heldLocks.erase name
                , liveHandles := st.liveHandles.eraseP (fun p => p.1 == name) }
  else .error (.valueError "no record of handle being live")

/-- The mtime scan at the top of `pop_oldest`: the entry with the
smallest metadata mtime; the strict `<` comparison keeps the first of
equal mtimes. -/
def find_oldest (l : List FileEntry) : Option FileEntry :=
  l.foldl (fun acc e =>
      match acc with
      | none => some e
      | some b => if e.mtime < b.mtime then some e else acc) none

/-- `FileCacheStorage.__delete_item_data`: delete the content and
metadata files and subtract the deleted bytes from the running total;
when zero bytes were deleted raise `NoItemsCached`. -/
def delete_item_data (name : String) (st : FileCacheStorage) :
    Except FcErr FileCacheStorage :=
  match st.entries.find? (fun e => e.name == name) with
  | some e =>
      if e.size > 0 then
        .ok { st with entries := st.entries.eraseP (fun e2 => e2.name == name)
                    , sizeTotal := st.sizeTotal - (e.size : Int) }
      else .error .noItemsCached
  | none => .error .noItemsCached

/-- `FileCacheStorage.pop_oldest`: scan for the oldest metadata mtime;
with no candidate (or a falsy empty name) raise
`ValueError("No data in cache")`; otherwise take the per-key lock
NON-blockingly and delete the victim's files.  A lock failure propagates
— there is no fallback to the next-oldest key.  (The `with` block
releases only one level of the reentrant `FileLock` that was acquired
twice, so the lock-set keeps the name, matching the reference count
staying positive in the source.) -/
def pop_oldest (st : FileCacheStorage) : Except FcErr String × FileCacheStorage :=
  match find_oldest st.entries with
  | none => (.error (.valueError "No data in cache"), st)
  | some e =>
      if e.name = "" then (.error (.valueError "No data in cache"), st)
      else
        match get_lock_for e.name false st with
        | (.error err, st', _) => (.error err, st')
        | (.ok _, st', _) =>
            match delete_item_data e.name st' with
            | .error err => (.error err, st')
            | .ok st'' => (.ok e.name, st'')

end FileCacheStorage

/-- State of one `CachedFileHandle` (`filecache/handle.py`).  `lock` is
`__lock`, set to `none` by `release`; `changedFlag` is `__changed`;
`metadata` sits next to its initial copy (`__init_metadata`).  The back
references and paths of the real object do not affect the guarded state
machine verified here. -/
structure CachedFileHandle where
  name : String
  lock : Option Nat
  discarded : Bool
  changedFlag : Bool
  metadata : List (String × String)
  initMetadata : List (String × String)
  deriving DecidableEq, Repr

namespace CachedFileHandle

/-- The message of the guard error (source: "Can not call after releasing
handle", with an apostrophe). -/
def releasedMsg : String := "Cant call after releasing handle"

/-- `CachedFileHandle._assert_not_released`: raise once `__lock` is
`None`. -/
def assert_not_released (h : CachedFileHandle) : Except PyErr Unit :=
  if h.lock.isNone then .error (.exceptionMsg releasedMsg) else .ok ()

/-- `CachedFileHandle.release`: guard, commit through the storage (lock
bookkeeping modelled by `FileCacheStorage.handle_released`), then clear
`__lock`, so every later call on this handle fails the guard. -/
def release (h : CachedFileHandle) : Except PyErr CachedFileHandle :=
  match h.assert_not_released with
  | .error e => .error e
  | .ok _ => .ok { h with lock := none }

/-- `CachedFileHandle.open(mode)`: guard; a mode containing `w` marks the
handle changed.  (The returned OS file object is outside the model.) -/
def open_file (mode : String) (h : CachedFileHandle) : Except PyErr CachedFileHandle :=
  match h.assert_not_released with
  | .error e => .error e
  | .ok _ =>
      if mode.toLower.contains 'w' then .ok { h with changedFlag := true } else .ok h

/-- `CachedFileHandle.copy_from(path)`: guard; a non-file source or a
copy-from-self is a `ValueError`; otherwise the file is copied in and
the handle marked changed.  The two filesystem facts are parameters. -/
def copy_from (pathIsFile : Bool) (sameFile : Bool) (h : CachedFileHandle) :
    Except PyErr CachedFileHandle :=
  match h.assert_not_released with
  | .error e => .error e
  | .ok _ =>
      if !pathIsFile then .error (.valueErrorMsg "Path is not an existing file")
      else if sameFile then .error (.valueErrorMsg "Cant copy from self")
      else .ok { h with changedFlag := true }

/-- `CachedFileHandle.copy_to(path)`: guard, then copy out (a filesystem
effect outside the model). -/
def copy_to (h : CachedFileHandle) : Except PyErr Unit :=
  match h.assert_not_released with
  | .error e => .error e
  | .ok _ => .ok ()

/-- `CachedFileHandle.discard`: guard, then mark discarded and changed. -/
def discard (h : CachedFileHandle) : Except PyErr CachedFileHandle :=
  match h.assert_not_released with
  | .error e => .error e
  | .ok _ => .ok { h with discarded := true, changedFlag := true }

end CachedFileHandle

/-- Concrete file-backend state used by the C8 witness: one live handle
for `"k"`, whose file lock is held. -/
def C8state : FileCacheStorage :=
  { liveHandles := [("k", true)], heldLocks := ["k"], entries := [], sizeTotal := 0 }

/-- Concrete file-backend state used by the C9 theorems: `"a"` is oldest
(mtime 1) and leased by a live handle; `"b"` is next-oldest (mtime 2)
and unlocked. -/
def C9state : FileCacheStorage :=
  { liveHandles := [("a", true)], heldLocks := [],
    entries := [{ name := "a", mtime := 1, size := 5 },
                { name := "b", mtime := 2, size := 5 }],
    sizeTotal := 10 }

/-- Concrete handle used by the C10 witness: lock still held. -/
def C10handle : CachedFileHandle :=
  { name := "k", lock := some 0, discarded := false, changedFlag := false,
    metadata := [], initMetadata := [] }

section AssocListHelpers

variable {β : Type}

/-- Erasing the first binding of one key leaves lookups of other keys alone. -/
theorem lookup_eraseP_ne (k key : String) (h : key ≠ k) :
    ∀ l : List (String × β),
      (l.eraseP (fun p => p.1 == k)).lookup key = l.lookup key := by
  intro l
  induction l with
  | nil => rfl
  | cons a l ih =>
      by_cases hak : a.1 = k
      · have h1 : (a.1 == k) = true := by simp [hak]
        have h2 : (key == a.1) = false := by simp [hak, h]
        simp [List.eraseP, h1, List.lookup, h2]
      · have h1 : (a.1 == k) = false := by simp [hak]
        by_cases hka : key = a.1
        · simp [List.eraseP, h1, List.lookup, hka]
        · have h2 : (key == a.1) = false := by simp [hka]
          simp [List.eraseP, h1, List.lookup, h2, ih]

/-- With unique keys, after erasing the binding of `k` no binding for `k`
remains. -/
theorem eraseP_keys_ne (k : String) :
    ∀ l : List (String × β), (l.map Prod.fst).Nodup →
      ∀ p ∈ l.eraseP (fun q => q.1 == k), p.1 ≠ k := by
  intro l
  induction l with
  | nil => intro _ p hp; simp [List.eraseP] at hp
  | cons a l ih =>
      intro hnd p hp
      have hnd' : (l.map Prod.fst).Nodup := (List.nodup_cons.mp hnd).2
      have hna : a.1 ∉ l.map Prod.fst := (List.nodup_cons.mp hnd).1
      by_cases hak : a.1 = k
      · have h1 : (a.1 == k) = true := by simp [hak]
        simp only [List.eraseP, h1] at hp
        intro hpk
        exact hna (hak ▸ hpk ▸ List.mem_map_of_mem Prod.fst hp)
      · have h1 : (a.1 == k) = false := by
          rw [beq_eq_false_iff_ne]; exact hak
        simp only [List.eraseP, h1, cond_false, List.mem_cons] at hp
        rcases hp with rfl | hp
        · exact hak
        · exact ih hnd' p hp

/-- A present key's lookup result is its unique binding; erasing it drops
exactly that binding's size from the size sum. -/
theorem sizeSum_eraseP {α : Type} (k : String) (item : CachedDataItem α) :
    ∀ l : List (String × CachedDataItem α), l.lookup k = some item →
      ((l.eraseP (fun p => p.1 == k)).map (fun p => (p.2.size : Int))).sum
        = (l.map (fun p => (p.2.size : Int))).sum - (item.size : Int) := by
  intro l
  induction l with
  | nil => intro h; simp [List.lookup] at h
  | cons a l ih =>
      intro h
      by_cases hak : k = a.1
      · have h1 : (k == a.1) = true := by simp [hak]
        have h2 : (a.1 == k) = true := by simp [hak]
        simp only [List.lookup, h1] at h
        injection h with h3
        have he : List.eraseP (fun p => p.1 == k) (a :: l) = l := by
          simp [List.eraseP, h2]
        rw [he]
        simp only [List.map_cons, List.sum_cons, h3]
        omega
      · have h1 : (k == a.1) = false := by simp [hak]
        have h2 : (a.1 == k) = false := by
          rw [beq_eq_false_iff_ne]; exact fun hh => hak hh.symm
        simp only [List.lookup, h1] at h
        have he : List.eraseP (fun p => p.1 == k) (a :: l)
            = a :: List.eraseP (fun p => p.1 == k) l := by
          simp [List.eraseP, h2]
        rw [he]
        simp only [List.map_cons, List.sum_cons, ih h]
        omega

/-- Looking a key up in an appended list when it is absent on the left. -/
theorem lookup_append_of_none (key : String) :
    ∀ l₁ l₂ : List (String × β), l₁.lookup key = none →
      (l₁ ++ l₂).lookup key = l₂.lookup key := by
  intro l₁
  induction l₁ with
  | nil => intro l₂ _; rfl
  | cons a l ih =>
      intro l₂ h
      by_cases hka : key = a.1
      · have h1 : (key == a.1) = true := by simp [hka]
        simp [List.lookup, h1] at h
      · have h1 : (key == a.1) = false := by simp [hka]
        simp only [List.lookup, h1] at h
        simp [List.lookup, h1, ih l₂ h]

/-- Looking a key up in an appended list when it is present on the left. -/
theorem lookup_append_of_some (key : String) (v : β) :
    ∀ l₁ l₂ : List (String × β), l₁.lookup key = some v →
      (l₁ ++ l₂).lookup key = some v := by
  intro l₁
  induction l₁ with
  | nil => intro l₂ h; simp [List.lookup] at h
  | cons a l ih =>
      intro l₂ h
      by_cases hka : key = a.1
      · have h1 : (key == a.1) = true := by simp [hka]
        simp only [List.lookup, h1] at h
        simp [List.lookup, h1, h]
      · have h1 : (key == a.1) = false := by simp [hka]
        simp only [List.lookup, h1] at h
        simp [List.lookup, h1, ih l₂ h]

/-- A key is in the key image of an association list iff its lookup hits. -/
theorem lookup_isSome_iff_mem_keys (key : String) :
    ∀ l : List (String × β), (l.lookup key).isSome ↔ key ∈ l.map Prod.fst := by
  intro l
  induction l with
  | nil => simp [List.lookup]
  | cons a l ih =>
      by_cases hka : key = a.1
      · have h1 : (key == a.1) = true := by simp [hka]
        simp [List.lookup, h1, hka]
      · have h1 : (key == a.1) = false := by simp [hka]
        simp [List.lookup, h1, hka, ih]

/-- Erasing a key that has no binding does nothing. -/
theorem eraseP_of_lookup_none (k : String) :
    ∀ l : List (String × β), l.lookup k = none →
      l.eraseP (fun p => p.1 == k) = l := by
  intro l
  induction l with
  | nil => intro _; rfl
  | cons a l ih =>
      intro h
      by_cases hka : k = a.1
      · have h1 : (k == a.1) = true := by simp [hka]
        simp [List.lookup, h1] at h
      · have h1 : (k == a.1) = false := by simp [hka]
        have h2 : (a.1 == k) = false := by
          rw [beq_eq_false_iff_ne]; exact fun hh => hka hh.symm
        simp only [List.lookup, h1] at h
        simp [List.eraseP, h2, ih h]

end AssocListHelpers

/-- A list all of whose keys differ from `k` has no lookup hit for `k`. -/
theorem lookup_eq_none_of_keys_ne {β : Type} (k : String) :
    ∀ l : List (String × β), (∀ p ∈ l, p.1 ≠ k) → l.lookup k = none := by
  intro l
  induction l with
  | nil => intro _; rfl
  | cons a l ih =>
      intro h
      have h1 : (k == a.1) = false := by
        rw [beq_eq_false_iff_ne]
        exact fun hh => h a (List.mem_cons_self a l) hh.symm
      simp only [List.lookup, h1, cond_false]
      exact ih (fun p hp => h p (List.mem_cons_of_mem a hp))

namespace MemoryStorage

variable {α : Type}

/-- `remove` preserves well-formedness. -/
theorem remove_WF {st : MemoryStorage α} (hwf : MemWF st) (k : String) :
    MemWF (st.remove k) := by
  obtain ⟨w1, w2, w3, w4, w5⟩ := hwf
  unfold remove
  cases hlk : st.items.lookup k with
  | none => exact ⟨w1, w2, w3, w4, w5⟩
  | some item =>
      refine ⟨w1.erase k, ?_, ?_, ?_, ?_⟩
      · exact ((List.eraseP_sublist st.items).map Prod.fst).nodup w2
      · intro key hkey
        have hne : key ≠ k := ((w1.mem_erase_iff).mp hkey).1
        have hmem : key ∈ st.keyPriority := ((w1.mem_erase_iff).mp hkey).2
        rw [lookup_eraseP_ne k key hne]
        exact w3 key hmem
      · intro p hp
        have hpl : p ∈ st.items := List.mem_of_mem_eraseP hp
        have hne : p.1 ≠ k := eraseP_keys_ne k st.items w2 p hp
        exact (List.mem_erase_of_ne hne).mpr (w4 p hpl)
      · simpa [sizeSum_eraseP k item st.items hlk] using congrArg (· - (item.size : Int)) w5

/-- After `remove k` the key `k` has no binding (keys were unique). -/
theorem remove_lookup_self {st : MemoryStorage α} (hwf : MemWF st) (k : String) :
    ((st.remove k).items.lookup k) = none := by
  obtain ⟨_, w2, _, _, _⟩ := hwf
  unfold remove
  cases hlk : st.items.lookup k with
  | none => exact hlk
  | some item =>
      exact lookup_eq_none_of_keys_ne k _ (eraseP_keys_ne k st.items w2)

/-- After `remove k` the key `k` is off the recency list (it was unique). -/
theorem remove_not_mem_priority {st : MemoryStorage α} (hwf : MemWF st) (k : String) :
    k ∉ (st.remove k).keyPriority := by
  obtain ⟨w1, _, w3, _, _⟩ := hwf
  unfold remove
  cases hlk : st.items.lookup k with
  | none =>
      intro hmem
      have := w3 k hmem
      rw [hlk] at this
      simp at this
  | some item =>
      intro hmem
      exact ((w1.mem_erase_iff).mp hmem).1 rfl

/-- Removal never increases the running total (sizes are non-negative). -/
theorem remove_totalSize_le (st : MemoryStorage α) (k : String) :
    (st.remove k).totalSize ≤ st.totalSize := by
  unfold remove
  cases st.items.lookup k with
  | none => exact le_refl _
  | some item =>
      show st.totalSize - (item.size : Int) ≤ st.totalSize
      omega

/-- The running total after `add`: at most the old total plus the new size. -/
theorem add_totalSize_le (now : Nat) (k : String) (d : α) (lu : Option Nat)
    (size : Nat) (ea : Option Nat) (st : MemoryStorage α) :
    (st.add now k d lu size ea).totalSize ≤ st.totalSize + (size : Int) := by
  unfold add
  have hrem := remove_totalSize_le st k
  cases ea <;> cases hhas : st.has k <;> simp [hhas] <;> omega

/-- The running total after `add` on a state without the key. -/
theorem add_totalSize_of_not_has (now : Nat) (k : String) (d : α) (lu : Option Nat)
    (size : Nat) (ea : Option Nat) (st : MemoryStorage α) (h : st.has k = false) :
    (st.add now k d lu size ea).totalSize = st.totalSize + (size : Int) := by
  unfold add
  cases ea <;> simp [h]

/-- `add` preserves well-formedness. -/
theorem add_WF {st : MemoryStorage α} (hwf : MemWF st) (now : Nat) (k : String)
    (d : α) (lu : Option Nat) (size : Nat) (ea : Option Nat) :
    MemWF (st.add now k d lu size ea) := by
  have hbase : MemWF (if st.has k then st.remove k else st) ∧
      ((if st.has k then st.remove k else st).items.lookup k = none) ∧
      k ∉ (if st.has k then st.remove k else st).keyPriority := by
    cases hh : st.has k with
    | true =>
        rw [if_pos rfl]
        exact ⟨remove_WF hwf k, remove_lookup_self hwf k, remove_not_mem_priority hwf k⟩
    | false =>
        have hcond : ¬(false = true) := by simp
        have hnone : st.items.lookup k = none := by
          unfold has at hh
          cases hlk : st.items.lookup k with
          | none => rfl
          | some item => rw [hlk] at hh; simp at hh
        have hnp : k ∉ st.keyPriority := by
          intro hmem
          have hs := hwf.2.2.1 k hmem
          rw [hnone] at hs
          simp at hs
        rw [if_neg hcond]
        exact ⟨hwf, hnone, hnp⟩
  set st1 := if st.has k then st.remove k else st with hst1
  obtain ⟨⟨w1, w2, w3, w4, w5⟩, hlk, hpr⟩ := hbase
  have hitem : MemWF
      { st1 with
        keyPriority := st1.keyPriority ++ [k]
        items := st1.items ++ [(k, { key := k, data := d, lastUsed := lu.getD now,
                                     size := size, expireAfter := ea })]
        totalSize := st1.totalSize + (size : Int) } := by
    refine ⟨?_, ?_, ?_, ?_, ?_⟩
    · rw [List.nodup_append]
      exact ⟨w1, List.nodup_singleton k, by simpa using hpr⟩
    · rw [List.map_append, List.nodup_append]
      refine ⟨w2, by simp, ?_⟩
      simp only [List.map_cons, List.map_nil]
      intro x hx
      simp only [List.mem_singleton]
      intro hxk
      subst hxk
      rw [← lookup_isSome_iff_mem_keys] at hx
      rw [hlk] at hx
      simp at hx
    · intro key hkey
      rcases List.mem_append.mp hkey with hkey | hkey
      · cases hsome : st1.items.lookup key with
        | none =>
            have := w3 key hkey
            rw [hsome] at this
            simp at this
        | some v => rw [lookup_append_of_some key v _ _ hsome]; rfl
      · have hk : key = k := by simpa using hkey
        subst hk
        rw [lookup_append_of_none key _ _ hlk]
        simp [List.lookup]
    · intro p hp
      rcases List.mem_append.mp hp with hp | hp
      · exact List.mem_append_left _ (w4 p hp)
      · have : p = (k, { key := k, data := d, lastUsed := lu.getD now,
                         size := size, expireAfter := ea }) := by simpa using hp
        rw [this]
        exact List.mem_append_right _ (by simp)
    · simp [w5]
  unfold add
  rw [← hst1]
  cases ea with
  | none => exact hitem
  | some e => exact ⟨hitem.1, hitem.2.1, hitem.2.2.1, hitem.2.2.2.1, hitem.2.2.2.2⟩

/-- Postcondition of the `make_room_for` eviction loop (with enough fuel):
the result is well-formed; the loop stopped because the storage became
empty or because one more entry of the incoming size now fits; a state
that already fits is returned untouched; victims are taken from the front
of the recency list in order (the surviving recency list is a suffix of
the original); and every surviving key still maps to its original entry. -/
theorem makeRoomLoop_spec (size : Nat) (m : Int) :
    ∀ (fuel : Nat) (st : MemoryStorage α), MemWF st → st.keyPriority.length ≤ fuel →
      MemWF (makeRoomLoop size m fuel st) ∧
      ((makeRoomLoop size m fuel st).keyPriority = [] ∨
        (makeRoomLoop size m fuel st).totalSize + (size : Int) ≤ m) ∧
      (st.totalSize + (size : Int) ≤ m → makeRoomLoop size m fuel st = st) ∧
      List.IsSuffix (makeRoomLoop size m fuel st).keyPriority st.keyPriority ∧
      (∀ k ∈ (makeRoomLoop size m fuel st).keyPriority,
        (makeRoomLoop size m fuel st).items.lookup k = st.items.lookup k) := by
  intro fuel
  induction fuel with
  | zero =>
      intro st hwf hlen
      have hnil : st.keyPriority = [] := List.eq_nil_of_length_eq_zero (Nat.le_zero.mp hlen)
      refine ⟨hwf, Or.inl hnil, fun _ => rfl, List.suffix_refl _, fun k _ => rfl⟩
  | succ fuel ih =>
      intro st hwf hlen
      show _ ∧ _
      cases hpr : st.keyPriority with
      | nil =>
          have hred : makeRoomLoop size m (fuel + 1) st = st := by
            simp only [makeRoomLoop, hpr]
          rw [hred]
          refine ⟨hwf, Or.inl hpr, fun _ => rfl, ?_, fun k _ => rfl⟩
          rw [hpr]
      | cons k ks =>
          by_cases hguard : st.totalSize + (size : Int) > m
          · have hred : makeRoomLoop size m (fuel + 1) st
                = makeRoomLoop size m fuel (st.remove k) := by
              simp only [makeRoomLoop, hpr]
              rw [if_pos hguard]
            have hkmem : k ∈ st.keyPriority := by rw [hpr]; exact List.mem_cons_self _ _
            have hksome := hwf.2.2.1 k hkmem
            have hrpr : (st.remove k).keyPriority = ks := by
              unfold remove
              cases hlk : st.items.lookup k with
              | none => rw [hlk] at hksome; simp at hksome
              | some item =>
                  show st.keyPriority.erase k = ks
                  rw [hpr]
                  exact List.erase_cons_head k ks
            have hwf' := remove_WF hwf k
            have hlen' : (st.remove k).keyPriority.length ≤ fuel := by
              rw [hrpr]
              have := congrArg List.length hpr
              simp at this
              omega
            obtain ⟨ih1, ih2, ih3, ih4, ih5⟩ := ih (st.remove k) hwf' hlen'
            rw [hred]
            refine ⟨ih1, ih2, ?_, ?_, ?_⟩
            · intro hfits
              exact absurd hguard (not_lt.mpr hfits)
            · have h1 : List.IsSuffix ks (k :: ks) := ⟨[k], rfl⟩
              exact List.IsSuffix.trans (hrpr ▸ ih4) h1
            · intro key hkey
              have hkeyks : key ∈ ks := (hrpr ▸ ih4).subset hkey
              have hkne : key ≠ k := by
                intro hk
                subst hk
                have hnd := hwf.1
                rw [hpr] at hnd
                exact (List.nodup_cons.mp hnd).1 hkeyks
              have hre : (st.remove k).items.lookup key = st.items.lookup key := by
                unfold remove
                cases hlk : st.items.lookup k with
                | none => rfl
                | some item => exact lookup_eraseP_ne k key hkne st.items
              rw [ih5 key hkey, hre]
          · have hred : makeRoomLoop size m (fuel + 1) st = st := by
              simp only [makeRoomLoop, hpr]
              rw [if_neg hguard]
            rw [hred]
            refine ⟨hwf, Or.inr (not_lt.mp hguard), fun _ => rfl, ?_, fun k _ => rfl⟩
            rw [hpr]

/-- Field equation for `add`: the items list after adding. -/
theorem add_items (now : Nat) (k : String) (d : α) (lu : Option Nat) (size : Nat)
    (ea : Option Nat) (st : MemoryStorage α) :
    (st.add now k d lu size ea).items
      = (if st.has k then st.remove k else st).items
        ++ [(k, { key := k, data := d, lastUsed := lu.getD now, size := size,
                  expireAfter := ea })] := by
  cases ea <;> rfl

/-- Field equation for `add`: the recency list after adding. -/
theorem add_priority (now : Nat) (k : String) (d : α) (lu : Option Nat) (size : Nat)
    (ea : Option Nat) (st : MemoryStorage α) :
    (st.add now k d lu size ea).keyPriority
      = (if st.has k then st.remove k else st).keyPriority ++ [k] := by
  cases ea <;> rfl

/-- Field equation for `add`: the running total after adding. -/
theorem add_total (now : Nat) (k : String) (d : α) (lu : Option Nat) (size : Nat)
    (ea : Option Nat) (st : MemoryStorage α) :
    (st.add now k d lu size ea).totalSize
      = (if st.has k then st.remove k else st).totalSize + (size : Int) := by
  cases ea <;> rfl

/-- The state `add` inserts into (after its initial conditional removal) has
no binding for the key. -/
theorem pre_lookup_none {st : MemoryStorage α} (hwf : MemWF st) (k : String) :
    ((if st.has k then st.remove k else st).items.lookup k) = none := by
  cases hh : st.has k with
  | true => rw [if_pos rfl]; exact remove_lookup_self hwf k
  | false =>
      rw [if_neg (by simp)]
      unfold has at hh
      cases hlk : st.items.lookup k with
      | none => rfl
      | some item => rw [hlk] at hh; simp at hh

/-- Unfolding equation for `remove` when the key is present. -/
theorem remove_eq_of_lookup {st : MemoryStorage α} {k : String} {item : CachedDataItem α}
    (hlk : st.items.lookup k = some item) :
    st.remove k = { st with items := st.items.eraseP (fun p => p.1 == k),
                            keyPriority := st.keyPriority.erase k,
                            totalSize := st.totalSize - (item.size : Int) } := by
  unfold remove
  rw [hlk]

/-- The state `add` inserts into has the key off the recency list. -/
theorem pre_not_mem_priority {st : MemoryStorage α} (hwf : MemWF st) (k : String) :
    k ∉ (if st.has k then st.remove k else st).keyPriority := by
  cases hh : st.has k with
  | true => rw [if_pos rfl]; exact remove_not_mem_priority hwf k
  | false =>
      rw [if_neg (by simp)]
      intro hmem
      have hs := hwf.2.2.1 k hmem
      unfold has at hh
      rw [hh] at hs
      simp at hs

end MemoryStorage

/-- Appending a fresh binding then erasing that key recovers the original
list, when the key was absent. -/
theorem eraseP_append_of_none {β : Type} (k : String) (x : β) :
    ∀ l : List (String × β), l.lookup k = none →
      ((l ++ [(k, x)]).eraseP (fun p => p.1 == k)) = l := by
  intro l
  induction l with
  | nil => intro _; simp [List.eraseP]
  | cons a l ih =>
      intro h
      by_cases hka : k = a.1
      · have h1 : (k == a.1) = true := by simp [hka]
        simp [List.lookup, h1] at h
      · have h1 : (k == a.1) = false := by simp [hka]
        have h2 : (a.1 == k) = false := by
          rw [beq_eq_false_iff_ne]; exact fun hh => hka hh.symm
        simp only [List.lookup, h1, cond_false] at h
        simp [List.eraseP, h2, ih h]

/-- Appending an element then erasing it recovers the original list, when
the element was absent from it. -/
theorem erase_append_of_not_mem (k : String) :
    ∀ l : List String, k ∉ l → ((l ++ [k]).erase k) = l := by
  intro l
  induction l with
  | nil => intro _; simp
  | cons a l ih =>
      intro h
      have hka : k ≠ a := fun hh => h (hh ▸ List.mem_cons_self a l)
      have h1 : (a == k) = false := by
        rw [beq_eq_false_iff_ne]; exact fun hh => hka hh.symm
      have h2 : k ∉ l := fun hh => h (List.mem_cons_of_mem a hh)
      simp only [List.cons_append, List.erase_cons, h1]
      simp [ih h2]

/-- A well-formed state with an empty recency list stores nothing. -/
theorem MemWF.items_nil_of_priority_nil {st : MemoryStorage α} (hwf : MemWF st)
    (hpr : st.keyPriority = []) : st.items = [] := by
  cases hit : st.items with
  | nil => rfl
  | cons p l =>
      have hmem := hwf.2.2.2.1 p (hit ▸ List.mem_cons_self p l)
      rw [hpr] at hmem
      simp at hmem

/-- A well-formed state with an empty recency list has zero total size. -/
theorem MemWF.total_zero_of_priority_nil {st : MemoryStorage α} (hwf : MemWF st)
    (hpr : st.keyPriority = []) : st.totalSize = 0 := by
  have h := hwf.2.2.2.2
  rw [hwf.items_nil_of_priority_nil hpr] at h
  simpa using h

/-- A well-formed state with an empty recency list holds no key. -/
theorem MemWF.has_false_of_priority_nil {st : MemoryStorage α} (hwf : MemWF st)
    (hpr : st.keyPriority = []) (k : String) : st.has k = false := by
  unfold MemoryStorage.has
  rw [hwf.items_nil_of_priority_nil hpr]
  rfl

/-- C2 (amended): on the in-memory backend, `make_room_for(added, some m)`
repeatedly evicts `next_to_remove()` (the head of the recency order, in
order) and stops as soon as `total_size_stored + added <= m` or the
backend is empty; a state that already fits is returned unchanged;
surviving entries are untouched.  But it is NOT a no-op for non-positive
`m` (it evicts, see the counterexample), and with `max_size = None` the
comparison against `None` raises `TypeError` on any non-empty backend
instead of no-op-ing. -/
theorem C2_make_room_for (st : MemoryStorage Nat) (size : Nat) (m : Int)
    (hwf : MemWF st) :
    (∀ st', MemoryStorage.make_room_for size (some m) st = .ok st' →
        MemWF st' ∧
        (st'.keyPriority = [] ∨ st'.totalSize + (size : Int) ≤ m) ∧
        (st.totalSize + (size : Int) ≤ m → st' = st) ∧
        List.IsSuffix st'.keyPriority st.keyPriority ∧
        (∀ k ∈ st'.keyPriority, st'.items.lookup k = st.items.lookup k)) ∧
    (MemoryStorage.make_room_for size none st
        = if st.keyPriority.isEmpty then .ok st else .error .typeError) := by
  constructor
  · intro st' heq
    have hspec := MemoryStorage.makeRoomLoop_spec size m st.keyPriority.length st hwf
      (le_refl _)
    have hres : st' = MemoryStorage.makeRoomLoop size m st.keyPriority.length st := by
      unfold MemoryStorage.make_room_for at heq
      injection heq with h
      exact h.symm
    rw [hres]
    exact hspec
  · unfold MemoryStorage.make_room_for
    cases hpr : st.keyPriority with
    | nil => rfl
    | cons a l => rfl

/-- Witness for C2's amended theorem at a concrete state (one entry of
size 5, incoming size 3, limit 10: already fits, so nothing is evicted). -/
theorem C2_make_room_for_witness :
    (∀ st', MemoryStorage.make_room_for 3 (some 10) C2state = .ok st' →
        MemWF st' ∧
        (st'.keyPriority = [] ∨ st'.totalSize + (3 : Int) ≤ 10) ∧
        (C2state.totalSize + (3 : Int) ≤ 10 → st' = C2state) ∧
        List.IsSuffix st'.keyPriority C2state.keyPriority ∧
        (∀ k ∈ st'.keyPriority, st'.items.lookup k = C2state.items.lookup k)) ∧
    (MemoryStorage.make_room_for 3 none C2state
        = if C2state.keyPriority.isEmpty then .ok C2state else .error .typeError) :=
  C2_make_room_for C2state 3 10 (by decide)

/-- C2 counterexample: with `max_size = 0` (non-positive) the claim says
`make_room_for` is a no-op, but the code evicts the stored entry. -/
theorem C2_counterexample :
    MemoryStorage.make_room_for 3 (some 0) C2state = .ok (MemoryStorage.empty Nat) ∧
    C2state ≠ MemoryStorage.empty Nat := by
  constructor
  · rfl
  · decide

/-- C1 (amended): for a cache with `max_size = M` over the in-memory
backend, every put that completes (returns instead of raising) keeps
`total_size_stored <= M`, and an oversized put that completes is a silent
no-op.  (Amendment: "no error raised" needs the expiry resolution to
succeed — with no ttl and no configured `max_age` the put raises
`TypeError` before the size check; see the counterexample.) -/
theorem C1_capacity_invariant (c c' : LRUCache Nat) (M : Nat) (now : Nat) (k : String)
    (d : Nat) (ttl size? : Option Nat)
    (hwf : MemWF c.storage) (hmax : c.maxSize = some M)
    (hle : c.storage.totalSize ≤ (M : Int))
    (hput : LRUCache.put now c k d ttl size? = .ok c') :
    MemWF c'.storage ∧ c'.storage.totalSize ≤ (M : Int) ∧
      (c.resolveSize d size? > M → c' = c) := by
  unfold LRUCache.put at hput
  cases hea : LRUCache.resolveExpireAfter now c.maxAge ttl with
  | error e =>
      rw [hea] at hput
      exact absurd hput (by simp)
  | ok ea =>
      rw [hea, hmax] at hput
      dsimp only at hput
      by_cases hsz : c.resolveSize d size? > M
      · rw [if_pos hsz] at hput
        injection hput with h
        subst h
        exact ⟨hwf, hle, fun _ => rfl⟩
      · rw [if_neg hsz] at hput
        have hmr : c.storage.make_room_for (c.resolveSize d size?) (some (M : Int))
            = .ok (MemoryStorage.makeRoomLoop (c.resolveSize d size?) (M : Int)
                    c.storage.keyPriority.length c.storage) := rfl
        rw [hmr] at hput
        injection hput with h
        subst h
        obtain ⟨hs1, hs2, _, _, _⟩ :=
          MemoryStorage.makeRoomLoop_spec (c.resolveSize d size?) (M : Int)
            c.storage.keyPriority.length c.storage hwf (le_refl _)
        set stmr := MemoryStorage.makeRoomLoop (c.resolveSize d size?) (M : Int)
          c.storage.keyPriority.length c.storage with hstmr
        have hszle : ((c.resolveSize d size? : Nat) : Int) ≤ (M : Int) := by
          have := not_lt.mp hsz
          exact_mod_cast this
        refine ⟨MemoryStorage.add_WF hs1 now k d none _ (some ea), ?_, fun hgt => absurd hgt hsz⟩
        cases hs2 with
        | inl hnil =>
            have hzero := hs1.total_zero_of_priority_nil hnil
            have hhas := hs1.has_false_of_priority_nil hnil k
            have heq := MemoryStorage.add_totalSize_of_not_has now k d none
              (c.resolveSize d size?) (some ea) stmr hhas
            show (stmr.add now k d none (c.resolveSize d size?) (some ea)).totalSize ≤ (M : Int)
            rw [heq, hzero]
            simpa using hszle
        | inr hfits =>
            have hlee := MemoryStorage.add_totalSize_le now k d none
              (c.resolveSize d size?) (some ea) stmr
            show (stmr.add now k d none (c.resolveSize d size?) (some ea)).totalSize ≤ (M : Int)
            omega

/-- Witness for C1 at a concrete input: an empty cache with `max_size = 5`
and `max_age = 10`; `put` of size 3 completes and stays within bounds. -/
theorem C1_capacity_invariant_witness :
    MemWF C1post.storage ∧ C1post.storage.totalSize ≤ ((5 : Nat) : Int) ∧
      (C1cache.resolveSize 7 (some 3) > 5 → C1post = C1cache) :=
  C1_capacity_invariant C1cache C1post 5 0 "a" 7 none (some 3) (by decide) rfl
    (by decide) rfl

/-- C1 counterexample: on a cache with `max_size = 2` but no `max_age`, a
put whose resolved size (10) exceeds the limit raises `TypeError` from the
expiry resolution (`datetime.now() + None`) instead of being rejected
silently with no error, falsifying the claim's "no error raised". -/
theorem C1_counterexample :
    LRUCache.put 100 C1big "abc" 0 none none = .error .typeError ∧
    C1big.resolveSize 0 none > 2 ∧ C1big.maxSize = some 2 := by
  refine ⟨rfl, by decide, rfl⟩

/-- C8: a non-blocking file-backend get while another handle for the key
is live fails with the CachedFileLocked kind: a same-process holder is
detected via the live-handle table without even attempting the file lock;
a cross-process holder causes the bounded (5-second) wait and then the
lock library's timeout error, which spec section 7 classifies as the same
CachedFileLocked kind (the repo's exceptions module itself is not under
src/).  After the holder's release, a subsequent get succeeds. -/
theorem C8_lock_exclusivity (st : FileCacheStorage) (k : String)
    (hnd1 : (st.liveHandles.map Prod.fst).Nodup) (hnd2 : st.heldLocks.Nodup) :
    (st.liveHandles.lookup k = some true →
        FileCacheStorage.fc_get k false st = (.error .cachedFileLocked, st) ∧
        (FileCacheStorage.get_lock_for k false st).2.2 = false ∧
        FcErr.is_cached_file_locked_kind .cachedFileLocked = true) ∧
    (st.liveHandles.lookup k = none → k ∈ st.heldLocks →
        FileCacheStorage.fc_get k false st = (.error .filelockTimeout, st) ∧
        FileCacheStorage.lock_timeout false = 5 ∧
        FcErr.is_cached_file_locked_kind .filelockTimeout = true) ∧
    (∀ st', st.liveHandles.lookup k = some true →
        FileCacheStorage.handle_released k st = .ok st' →
        (FileCacheStorage.fc_get k false st').1 = .ok ()) := by
  refine ⟨?_, ?_, ?_⟩
  · intro h
    refine ⟨?_, ?_, rfl⟩
    · unfold FileCacheStorage.fc_get FileCacheStorage.get_lock_for
      rw [h]
    · unfold FileCacheStorage.get_lock_for
      rw [h]
  · intro h1 h2
    refine ⟨?_, rfl, rfl⟩
    unfold FileCacheStorage.fc_get FileCacheStorage.get_lock_for
      FileCacheStorage.acquire_lock
    rw [h1]
    dsimp only
    rw [if_pos h2]
    rfl
  · intro st' h hrel
    unfold FileCacheStorage.handle_released at hrel
    rw [if_pos (by rw [h]; rfl)] at hrel
    injection hrel with hrel
    subst hrel
    have hlk : ((st.liveHandles.eraseP (fun p => p.1 == k)).lookup k) = none :=
      lookup_eq_none_of_keys_ne k _ (eraseP_keys_ne k st.liveHandles hnd1)
    have hnm : k ∉ st.heldLocks.erase k := fun hmem =>
      ((hnd2.mem_erase_iff).mp hmem).1 rfl
    unfold FileCacheStorage.fc_get FileCacheStorage.get_lock_for
      FileCacheStorage.acquire_lock
    dsimp only
    rw [hlk]
    dsimp only
    rw [if_neg hnm]

/-- Witness for C8 at a concrete state: `"k"` has a live handle, so the
same-process non-blocking get fails with `CachedFileLocked` without
touching the file lock. -/
theorem C8_lock_exclusivity_witness :
    FileCacheStorage.fc_get "k" false C8state = (.error .cachedFileLocked, C8state) ∧
    (FileCacheStorage.get_lock_for "k" false C8state).2.2 = false ∧
    FcErr.is_cached_file_locked_kind .cachedFileLocked = true :=
  (C8_lock_exclusivity C8state "k" (by decide) (by decide)).1 rfl

/-- A successful `__delete_item_data` removes exactly the named entry
from the on-disk set. -/
theorem delete_entries_of_ok (name : String) (st st'' : FileCacheStorage)
    (h : FileCacheStorage.delete_item_data name st = .ok st'') :
    st''.entries = st.entries.eraseP (fun e2 => e2.name == name) := by
  unfold FileCacheStorage.delete_item_data at h
  split at h
  · split at h
    · injection h with h
      rw [← h]
    · exact absurd h (by simp)
  · exact absurd h (by simp)

/-- A successful `_get_lock_for` implies the key had no live same-process
handle and no held file lock, and leaves the on-disk entries alone. -/
theorem get_lock_for_ok_facts (name : String) (b : Bool) (st : FileCacheStorage)
    (u : Unit) (stX : FileCacheStorage) (flag : Bool)
    (h : FileCacheStorage.get_lock_for name b st = (.ok u, stX, flag)) :
    st.liveHandles.lookup name ≠ some true ∧ name ∉ st.heldLocks ∧
    stX.entries = st.entries := by
  unfold FileCacheStorage.get_lock_for FileCacheStorage.acquire_lock at h
  split at h
  · simp at h
  · rename_i hl
    split at h
    · split at h <;> simp at h
    · rename_i hm
      injection h with h1 h2
      injection h2 with h2 h3
      refine ⟨by rw [hl]; simp, hm, ?_⟩
      rw [← h2]
      rfl
  · rename_i hl
    split at h
    · split at h <;> simp at h
    · rename_i hm
      injection h with h1 h2
      injection h2 with h2 h3
      refine ⟨by rw [hl]; simp, hm, ?_⟩
      rw [← h2]

/-- C9 (amended): a file-backend capacity-eviction step (`pop_oldest`)
never deletes an entry whose per-key lock it cannot take: a successful
pop deletes exactly the oldest entry and implies its key had no live
handle and no held file lock; when the oldest key IS locked, the step
fails with the lock error and deletes nothing — it does NOT fall back to
the next-oldest unlocked key (see the counterexample). -/
theorem C9_eviction_lock_safety (st : FileCacheStorage) :
    (∀ name st', FileCacheStorage.pop_oldest st = (.ok name, st') →
        st.liveHandles.lookup name ≠ some true ∧
        name ∉ st.heldLocks ∧
        (FileCacheStorage.find_oldest st.entries).map FileEntry.name = some name ∧
        st'.entries = st.entries.eraseP (fun e => e.name == name)) ∧
    (∀ e, FileCacheStorage.find_oldest st.entries = some e →
        (st.liveHandles.lookup e.name = some true ∨
          (st.liveHandles.lookup e.name = none ∧ e.name ∈ st.heldLocks)) →
        (∃ err, (FileCacheStorage.pop_oldest st).1 = .error err) ∧
        (FileCacheStorage.pop_oldest st).2.entries = st.entries) := by
  constructor
  · intro name st' hpop
    unfold FileCacheStorage.pop_oldest at hpop
    split at hpop
    · simp at hpop
    · rename_i e hfo
      split at hpop
      · simp at hpop
      · rename_i hne
        split at hpop
        · simp at hpop
        · rename_i u stX flag hglf
          split at hpop
          · simp at hpop
          · rename_i st'' hdel
            injection hpop with hname hst
            injection hname with hname
            obtain ⟨hn1, hn2, hent0⟩ := get_lock_for_ok_facts e.name false st u stX flag hglf
            refine ⟨?_, ?_, ?_, ?_⟩
            · rw [← hname]
              exact hn1
            · rw [← hname]
              exact hn2
            · rw [← hname, hfo]
              rfl
            · have hent := delete_entries_of_ok e.name stX st'' hdel
              rw [← hst, hent, hent0, hname]
  · intro e hfo hlocked
    unfold FileCacheStorage.pop_oldest
    rw [hfo]
    dsimp only
    by_cases hne : e.name = ""
    · rw [if_pos hne]
      exact ⟨⟨_, rfl⟩, rfl⟩
    · rw [if_neg hne]
      rcases hlocked with hl | ⟨hl, hm⟩
      · unfold FileCacheStorage.get_lock_for
        rw [hl]
        exact ⟨⟨_, rfl⟩, rfl⟩
      · unfold FileCacheStorage.get_lock_for FileCacheStorage.acquire_lock
        rw [hl]
        dsimp only
        rw [if_pos hm]
        exact ⟨⟨_, rfl⟩, rfl⟩

/-- Witness for C9 at a concrete state: the oldest key `"a"` is leased by
a live handle, so the eviction step errors and deletes nothing. -/
theorem C9_eviction_lock_safety_witness :
    (∃ err, (FileCacheStorage.pop_oldest C9state).1 = .error err) ∧
    (FileCacheStorage.pop_oldest C9state).2.entries = C9state.entries :=
  (C9_eviction_lock_safety C9state).2 { name := "a", mtime := 1, size := 5 } rfl
    (Or.inl rfl)

/-- C9 counterexample: with oldest `"a"` locked and next-oldest `"b"`
unlocked, the claim says the pass selects `"b"`; the code instead fails
with the lock error and leaves both entries (in particular `"b"`) in
place. -/
theorem C9_counterexample :
    FileCacheStorage.pop_oldest C9state = (.error .cachedFileLocked, C9state) ∧
    (FileCacheStorage.find_oldest C9state.entries).map FileEntry.name = some "a" ∧
    C9state.liveHandles.lookup "a" = some true ∧
    C9state.liveHandles.lookup "b" = none ∧ "b" ∉ C9state.heldLocks ∧
    (FileCacheStorage.pop_oldest C9state).2.entries = C9state.entries := by
  refine ⟨rfl, rfl, rfl, rfl, by decide, rfl⟩

/-- C10: once `release()` has returned on a `CachedFileHandle`, every
subsequent operation on the handle — `release`, `open`, `copy_from`,
`copy_to`, `discard` — fails the not-released guard instead of acting,
so the commit/accounting/unlock of a handle run at most once. -/
theorem C10_released_handle_guard (h h' : CachedFileHandle)
    (hrel : CachedFileHandle.release h = .ok h') :
    CachedFileHandle.release h' = .error (.exceptionMsg CachedFileHandle.releasedMsg) ∧
    (∀ mode, CachedFileHandle.open_file mode h'
        = .error (.exceptionMsg CachedFileHandle.releasedMsg)) ∧
    (∀ pf sf, CachedFileHandle.copy_from pf sf h'
        = .error (.exceptionMsg CachedFileHandle.releasedMsg)) ∧
    CachedFileHandle.copy_to h' = .error (.exceptionMsg CachedFileHandle.releasedMsg) ∧
    CachedFileHandle.discard h' = .error (.exceptionMsg CachedFileHandle.releasedMsg) := by
  have hlock : h'.lock = none := by
    unfold CachedFileHandle.release CachedFileHandle.assert_not_released at hrel
    cases hl : h.lock with
    | none => rw [hl] at hrel; simp at hrel
    | some v =>
        rw [hl] at hrel
        simp at hrel
        rw [← hrel]
  have hguard : CachedFileHandle.assert_not_released h'
      = .error (.exceptionMsg CachedFileHandle.releasedMsg) := by
    unfold CachedFileHandle.assert_not_released
    rw [hlock]
    rfl
  refine ⟨?_, ?_, ?_, ?_, ?_⟩
  · unfold CachedFileHandle.release
    rw [hguard]
  · intro mode
    unfold CachedFileHandle.open_file
    rw [hguard]
  · intro pf sf
    unfold CachedFileHandle.copy_from
    rw [hguard]
  · unfold CachedFileHandle.copy_to
    rw [hguard]
  · unfold CachedFileHandle.discard
    rw [hguard]

/-- Witness for C10 at a concrete handle: after a successful release, a
second release fails the guard. -/
theorem C10_released_handle_guard_witness :
    CachedFileHandle.release { C10handle with lock := none }
      = .error (.exceptionMsg CachedFileHandle.releasedMsg) :=
  (C10_released_handle_guard C10handle { C10handle with lock := none } rfl).1

/-- C3: the claim says a put with neither ttl nor configured `max_age`
stores an entry with no expiry and still succeeds.  The code instead
raises `TypeError` (`datetime.now() + None`), and the two positive arms
behave as claimed (`now + ttl`, else `now + max_age`); there is no
"no expiry" outcome at all.  This contradicts the repo's own tests, which
exercise a cache with neither limit and expect the put to succeed. -/
theorem C3_expiry_resolution :
    LRUCache.put 100 C3cache "abc" 0 none none = .error .typeError ∧
    LRUCache.resolveExpireAfter 100 (some 50) none = .ok 150 ∧
    LRUCache.resolveExpireAfter 100 none (some 7) = .ok 107 ∧
    LRUCache.resolveExpireAfter 100 none none = .error .typeError :=
  ⟨rfl, rfl, rfl, rfl⟩

/-- C4: the claim says backend get fails with `ItemNotCached` when absent
and with a distinct `ItemExpired` when expired, removing the expired entry
and subtracting its size.  `MemoryStorage.get` instead raises a plain
`KeyError` in BOTH cases (no distinct error kinds) and leaves the expired
entry stored with the total unchanged.  This contradicts the repo's own
tests (`test_item_expired` expects `ItemExpired` and
`total_size_stored == 0` after the failing get). -/
theorem C4_get_expired :
    (MemoryStorage.get 20 "k" C4state).1 = .error (.keyError ("k" ++ " has expired")) ∧
    (MemoryStorage.get 20 "k" C4state).2 = C4state ∧
    (MemoryStorage.get 20 "missing" C4state).1 = .error (.keyError "missing") ∧
    PyErr.is_key_error (.keyError ("k" ++ " has expired")) = true ∧
    PyErr.is_key_error (.keyError "missing") = true ∧
    C4state.totalSize = 5 ∧ C4state.items.lookup "k" ≠ none := by
  refine ⟨rfl, rfl, rfl, rfl, rfl, rfl, by decide⟩

/-- C5: the claim says `next_to_remove()` returns the key with the OLDEST
`last_used`.  The relational backend's query orders `last_used DESC`, so
on a table where `"a"` is least recently used it returns `"b"` (the most
recently used) — the inversion the spec itself flags as a bug, and the
opposite of what the in-memory backend and the repo's tests implement. -/
theorem C5_next_to_remove_inverted :
    Sqlite3Storage.next_to_remove C5rows = some "b" ∧
    Sqlite3Storage.next_to_remove_oldest C5rows = some "a" ∧
    Sqlite3Storage.next_to_remove C5rows ≠ Sqlite3Storage.next_to_remove_oldest C5rows := by
  refine ⟨rfl, rfl, by decide⟩

/-- C6: the claim says `remove_expired()` removes exactly the expired
entries.  On any state whose expiry-heap top has in fact expired,
`MemoryStorage.remove_expired` executes `heapq.heappop()` with no
arguments: it raises `TypeError` and removes nothing — contradicting the
repo's own `test_clean_expired`. -/
theorem C6_remove_expired_raises :
    MemoryStorage.remove_expired 20 C6state = (.error .typeError, C6state) ∧
    C6state.expireQueue.head? = some (10, "x") ∧ (10 : Nat) ≤ 20 ∧
    C6state.items.lookup "x" ≠ none := by
  refine ⟨rfl, rfl, by decide, by decide⟩

/-- C7: For every key k and values v1, v2, performing put(k, v1) then
put(k, v2) leaves exactly one live entry for k: `add` removes any prior
entry for the key before inserting, so `num_items` (and the whole items
dict and recency list) is the same as after a single put, and
`total_size_stored` reflects only v2's size, never the sum of both. -/
theorem C7_replace_semantics (st : MemoryStorage Nat) (k : String) (v1 v2 : Nat)
    (lu1 lu2 : Option Nat) (s1 s2 : Nat) (e1 e2 : Option Nat) (now1 now2 : Nat)
    (hwf : MemWF st) :
    ((st.add now1 k v1 lu1 s1 e1).add now2 k v2 lu2 s2 e2).items
        = (st.add now2 k v2 lu2 s2 e2).items ∧
    ((st.add now1 k v1 lu1 s1 e1).add now2 k v2 lu2 s2 e2).keyPriority
        = (st.add now2 k v2 lu2 s2 e2).keyPriority ∧
    ((st.add now1 k v1 lu1 s1 e1).add now2 k v2 lu2 s2 e2).totalSize
        = (st.add now2 k v2 lu2 s2 e2).totalSize ∧
    ((st.add now1 k v1 lu1 s1 e1).add now2 k v2 lu2 s2 e2).items.lookup k
        = some { key := k, data := v2, lastUsed := lu2.getD now2, size := s2,
                 expireAfter := e2 } ∧
    ((((st.add now1 k v1 lu1 s1 e1).add now2 k v2 lu2 s2 e2).items.map
        Prod.fst).count k) = 1 ∧
    (((st.add now1 k v1 lu1 s1 e1).add now2 k v2 lu2 s2 e2).keyPriority.count k) = 1 := by
  set item1 : CachedDataItem Nat :=
    { key := k, data := v1, lastUsed := lu1.getD now1, size := s1, expireAfter := e1 }
    with hitem1
  set item2 : CachedDataItem Nat :=
    { key := k, data := v2, lastUsed := lu2.getD now2, size := s2, expireAfter := e2 }
    with hitem2
  set stA := st.add now1 k v1 lu1 s1 e1 with hstA
  have hpre_items := MemoryStorage.pre_lookup_none hwf k
  have hpre_pr := MemoryStorage.pre_not_mem_priority hwf k
  have hAitems : stA.items = (if st.has k then st.remove k else st).items ++ [(k, item1)] :=
    MemoryStorage.add_items now1 k v1 lu1 s1 e1 st
  have hApr : stA.keyPriority = (if st.has k then st.remove k else st).keyPriority ++ [k] :=
    MemoryStorage.add_priority now1 k v1 lu1 s1 e1 st
  have hAtot : stA.totalSize = (if st.has k then st.remove k else st).totalSize + (s1 : Int) :=
    MemoryStorage.add_total now1 k v1 lu1 s1 e1 st
  have hAlook : stA.items.lookup k = some item1 := by
    rw [hAitems, lookup_append_of_none k _ _ hpre_items]
    simp [List.lookup]
  have hAhas : stA.has k = true := by
    unfold MemoryStorage.has
    rw [hAlook]
    rfl
  have hri : (stA.remove k).items = (if st.has k then st.remove k else st).items := by
    rw [MemoryStorage.remove_eq_of_lookup hAlook]
    show stA.items.eraseP (fun p => p.1 == k) = _
    rw [hAitems]
    exact eraseP_append_of_none k item1 _ hpre_items
  have hrp : (stA.remove k).keyPriority = (if st.has k then st.remove k else st).keyPriority := by
    rw [MemoryStorage.remove_eq_of_lookup hAlook]
    show stA.keyPriority.erase k = _
    rw [hApr]
    exact erase_append_of_not_mem k _ hpre_pr
  have hrt : (stA.remove k).totalSize = (if st.has k then st.remove k else st).totalSize := by
    rw [MemoryStorage.remove_eq_of_lookup hAlook]
    show stA.totalSize - (item1.size : Int) = _
    rw [hAtot]
    show _ + (s1 : Int) - (s1 : Int) = _
    omega
  have h2items : ((stA.add now2 k v2 lu2 s2 e2).items)
      = (if st.has k then st.remove k else st).items ++ [(k, item2)] := by
    rw [MemoryStorage.add_items, if_pos hAhas, hri]
  have h2pr : ((stA.add now2 k v2 lu2 s2 e2).keyPriority)
      = (if st.has k then st.remove k else st).keyPriority ++ [k] := by
    rw [MemoryStorage.add_priority, if_pos hAhas, hrp]
  have h2tot : ((stA.add now2 k v2 lu2 s2 e2).totalSize)
      = (if st.has k then st.remove k else st).totalSize + (s2 : Int) := by
    rw [MemoryStorage.add_total, if_pos hAhas, hrt]
  have h1items := MemoryStorage.add_items now2 k v2 lu2 s2 e2 st
  have h1pr := MemoryStorage.add_priority now2 k v2 lu2 s2 e2 st
  have h1tot := MemoryStorage.add_total now2 k v2 lu2 s2 e2 st
  refine ⟨?_, ?_, ?_, ?_, ?_, ?_⟩
  · rw [h2items, h1items]
  · rw [h2pr, h1pr]
  · rw [h2tot, h1tot]
  · rw [h2items, lookup_append_of_none k _ _ hpre_items]
    simp [List.lookup]
  · rw [h2items, List.map_append, List.count_append]
    have h0 : ((if st.has k then st.remove k else st).items.map Prod.fst).count k = 0 := by
      rw [List.count_eq_zero]
      intro hmem
      rw [← lookup_isSome_iff_mem_keys] at hmem
      rw [hpre_items] at hmem
      simp at hmem
    rw [h0]
    simp
  · rw [h2pr, List.count_append]
    have h0 : ((if st.has k then st.remove k else st).keyPriority).count k = 0 :=
      List.count_eq_zero.mpr hpre_pr
    rw [h0]
    simp

/-- Witness for C7 at a concrete input: the empty storage, two adds of the
same key. -/
theorem C7_replace_semantics_witness :
    (((MemoryStorage.empty Nat).add 1 "k" 10 none 4 none).add 2 "k" 20 none 6 none).items
        = ((MemoryStorage.empty Nat).add 2 "k" 20 none 6 none).items ∧
    (((MemoryStorage.empty Nat).add 1 "k" 10 none 4 none).add 2 "k" 20 none 6 none).keyPriority
        = ((MemoryStorage.empty Nat).add 2 "k" 20 none 6 none).keyPriority ∧
    (((MemoryStorage.empty Nat).add 1 "k" 10 none 4 none).add 2 "k" 20 none 6 none).totalSize
        = ((MemoryStorage.empty Nat).add 2 "k" 20 none 6 none).totalSize ∧
    (((MemoryStorage.empty Nat).add 1 "k" 10 none 4 none).add 2 "k" 20 none 6 none).items.lookup "k"
        = some { key := "k", data := 20, lastUsed := (none : Option Nat).getD 2, size := 6,
                 expireAfter := none } ∧
    (((((MemoryStorage.empty Nat).add 1 "k" 10 none 4 none).add 2 "k" 20 none 6 none).items.map
        Prod.fst).count "k") = 1 ∧
    ((((MemoryStorage.empty Nat).add 1 "k" 10 none 4 none).add 2 "k" 20 none 6 none).keyPriority.count "k") = 1 :=
  C7_replace_semantics (MemoryStorage.empty Nat) "k" 10 20 none none 4 6 none none 1 2
    (by decide)

end LruSpec
